import Mathlib

/-
Verification of the prstack stack-synchronization tool
(src/python/prstack/prstack.py) against its specification.

The Python source is shallowly embedded below: the persisted stack file is a
`List StackItem`; `Stack.load` becomes `load`, `Stack.extend` becomes `extend`,
`Stack.enable` / `Stack.disable` become `enable` / `disable` (with Python's
signed list indexing modelled by `pyIndex`), `PullRequest.edit`'s body
computation becomes `edit` (with Python's `str.split(sep)` modelled via
`splitFirst`), `PullRequest.ensure`'s create-vs-edit decision becomes `ensure`,
the `functools.cache` on `get_pr_link` becomes an explicit cache threaded
through `get_pr_link`, and the error propagation of the `asyncio.gather`
fan-out in `Stack.ensure_prs` becomes `gatherFirstError` (children modelled as
completing in list order; `asyncio.gather` without `return_exceptions` always
propagates a single exception, whichever completion order occurs).
-/

set_option autoImplicit false

namespace Prstack

/-- Record persisted for one stack item (`StackItem.to_dict` in the source):
subject, branch, title, initial_sha and the enabled flag. The derived fields
`prev` and `upstream` are not persisted; `load` computes them below. -/
structure StackItem where
  subject : String
  branch : String
  title : String
  initial_sha : String
  enabled : Bool
deriving DecidableEq, Repr

/-- Replace the `enabled` flag of an item, keeping every other field. -/
def withEnabled (it : StackItem) (v : Bool) : StackItem :=
  ⟨it.subject, it.branch, it.title, it.initial_sha, v⟩

/-- Upstream computed by `Stack.load`: the default branch when there is no
previous item or the previous item is disabled, otherwise the previous
item's branch (`prstack.py` line 205). -/
def upstreamOf (db : String) : Option StackItem → String
  | none => db
  | some p => if p.enabled = true then p.branch else db

/-- The loop body of `Stack.load`: walk the (already filtered) item list,
pairing each item with its computed upstream; `prev` is the immediately
preceding item of the filtered list. -/
def loadChain (db : String) : Option StackItem → List StackItem → List (StackItem × String)
  | _, [] => []
  | prev, it :: rest => (it, upstreamOf db prev) :: loadChain db (some it) rest

/-- `Stack.load(include_disabled)`: parse the persisted list, keep items that
are enabled or (when `includeDisabled`) all of them, then compute each item's
upstream. `db` is `get_default_branch_name()`. -/
def load (ps : List StackItem) (includeDisabled : Bool) (db : String) : List (StackItem × String) :=
  loadChain db none (ps.filter fun it => it.enabled || includeDisabled)

/-- Positional lookup in a list (0-based), used to state per-index facts. -/
def nth {α : Type} : List α → Nat → Option α
  | [], _ => none
  | a :: _, 0 => some a
  | _ :: l, n + 1 => nth l n

/-- Set the `enabled` flag of the element at 0-based index `k`. -/
def setEnabledAt : List StackItem → Nat → Bool → List StackItem
  | [], _, _ => []
  | it :: rest, 0, v => withEnabled it v :: rest
  | it :: rest, k + 1, v => it :: setEnabledAt rest k v

/-- Python list-index resolution for `items[i]` on a list of length `n`:
indices `0 ≤ i < n` address position `i`, indices `-n ≤ i < 0` address
position `i + n`, anything else raises `IndexError` (modelled as `none`). -/
def pyIndex (n : Nat) (i : Int) : Option Nat :=
  if 0 ≤ i ∧ i < (n : Int) then some i.toNat
  else if -(n : Int) ≤ i ∧ i < 0 then some (i + n).toNat
  else none

/-- `Stack.disable(num)`: load the full list, set `items[num - 1].enabled`
to `False`, store. `none` models the `IndexError` raised before anything is
stored; `some` is the newly persisted list. -/
def disable (ps : List StackItem) (num : Int) : Option (List StackItem) :=
  (pyIndex ps.length (num - 1)).map fun k => setEnabledAt ps k false

/-- `Stack.enable(num)`: same as `disable` with the flag set to `True`. -/
def enable (ps : List StackItem) (num : Int) : Option (List StackItem) :=
  (pyIndex ps.length (num - 1)).map fun k => setEnabledAt ps k true

/-- `Stack.extend(title)`: `items = self.load()` (enabled-only, the default),
`prev = items[-1]` (`none` models the `IndexError` on an empty result), then
append a fresh enabled item whose branch and title use `len(items) + 1` and
whose `initial_sha` is copied from `prev`, and store exactly that list. -/
def extend (name : String) (ps : List StackItem) (t : String) : Option (List StackItem) :=
  let items := ps.filter fun it => it.enabled
  match items.getLast? with
  | none => none
  | some prev =>
      some (items ++
        [⟨t, "prstack-" ++ name ++ "-" ++ toString (items.length + 1),
          toString (items.length + 1) ++ ") " ++ t, prev.initial_sha, true⟩])

/-- Split a character list at the first occurrence of `sep`: returns the part
before the occurrence and the part after it, or `none` when `sep` does not
occur. This models one step of Python's `str.split(sep)`. -/
def splitFirst (sep : List Char) : List Char → Option (List Char × List Char)
  | [] => if sep.isPrefixOf ([] : List Char) then some ([], []) else none
  | c :: cs =>
      if sep.isPrefixOf (c :: cs) then some ([], (c :: cs).drop sep.length)
      else
        match splitFirst sep cs with
        | none => none
        | some (a, b) => some (c :: a, b)

/-- Boolean occurrence test: does `sep` occur as a contiguous run in `s`? -/
def hasSub (sep : List Char) : List Char → Bool
  | [] => sep.isEmpty
  | c :: cs => sep.isPrefixOf (c :: cs) || hasSub sep cs

/-- Boolean suffix test on character lists. -/
def hasSuffixB (suf s : List Char) : Bool :=
  suf.reverse.isPrefixOf s.reverse

/-- The literal marker `"## Description"` used by `PullRequest.edit`. -/
def pr_marker : List Char := "## Description".data

/-- Body computation of `PullRequest.edit`: Python's
`body_prefix + current_body.split("## Description")[1]`. `split` cuts the
body at every occurrence of the marker; field `[1]` is therefore the chunk
between the first and the second occurrence (the whole remainder when the
marker occurs once), and the subscript raises `IndexError` (modelled `none`)
when the marker is absent. -/
def edit (body pre : List Char) : Option (List Char) :=
  match splitFirst pr_marker body with
  | none => none
  | some (_, rest) =>
      match splitFirst pr_marker rest with
      | none => some (pre ++ rest)
      | some (b, _) => some (pre ++ b)

/-- The two effects `PullRequest.ensure` can perform on the review service. -/
inductive EnsureAction where
  | create
  | edit
deriving DecidableEq, Repr

/-- `PullRequest.get_state`: the review service's reported state, with a
lookup failure (no PR) normalized to `"CLOSED"`. -/
def get_state : Option String → String
  | none => "CLOSED"
  | some s => s

/-- Decision of `PullRequest.ensure`: create a draft PR exactly when the
observed state equals `"CLOSED"` and the item is not disabled; edit
otherwise (`prstack.py` lines 114-126). -/
def ensure (state : String) (disabled : Bool) : EnsureAction :=
  if state = "CLOSED" ∧ disabled = false then EnsureAction.create else EnsureAction.edit

/-- Error propagation of `asyncio.gather` (no `return_exceptions`) over the
per-item outcomes of `Stack.ensure_prs`, with children modelled as finishing
in list order: the first failing child's exception is propagated alone and
the phase stops reporting there. -/
def gatherFirstError : List (Except String Unit) → Except String Unit
  | [] => Except.ok Unit.unit
  | Except.ok _ :: rs => gatherFirstError rs
  | Except.error e :: _ => Except.error e

/-- The failures the caller of the phase gets to see in one result value. -/
def errorsReported : Except String Unit → List String
  | Except.ok _ => []
  | Except.error e => [e]

/-- Every per-item failure of the phase, in item order. -/
def allErrors : List (Except String Unit) → List String
  | [] => []
  | Except.ok _ :: rs => allErrors rs
  | Except.error e :: rs => e :: allErrors rs

/-- Lookup in the `functools.cache` table of `get_pr_link`, keyed by ref. -/
def lookupCache : List (String × String) → String → Option String
  | [], _ => none
  | (r, v) :: rest, ref => if r = ref then some v else lookupCache rest ref

/-- `get_pr_link(ref)` under `functools.cache`: on a cache hit return the
memoized string unchanged; on a miss consult the review service (`world`),
fall back to the `"(none)"` placeholder when it reports no PR, and memoize
whichever string was produced — including the placeholder, because the
`try/except` lives inside the cached function. -/
def get_pr_link (world : String → Option String) (cache : List (String × String))
    (ref : String) : String × List (String × String) :=
  match lookupCache cache ref with
  | some v => (v, cache)
  | none =>
      match world ref with
      | some url => (url, (ref, url) :: cache)
      | none => ("(none)", (ref, "(none)") :: cache)

/-- One line produced by `Stack.get_pr_links`: turtle emoji for the marked
item, egg emoji for the rest, then the link text. -/
def prLine (i m : Nat) (link : String) : String :=
  "- " ++ (if i = m then "🐢" else "🥚") ++ " " ++ link ++ "\n"

/-- Review-service stub that knows no PR for any ref. -/
def worldEmpty : String → Option String := fun _ => none

/-- Review-service stub in which every ref has a PR with a fixed url. -/
def worldFound : String → Option String := fun _ => some "https://example.com/pr/1"

/-- Item 1 of the 3-item scenario stack `foo`: enabled. -/
def foo1 : StackItem := ⟨"s1", "prstack-foo-1", "1) s1", "sha1", true⟩

/-- Item 2 of the 3-item scenario stack `foo`: disabled. -/
def foo2 : StackItem := ⟨"s2", "prstack-foo-2", "2) s2", "sha2", false⟩

/-- Item 3 of the 3-item scenario stack `foo`: enabled. -/
def foo3 : StackItem := ⟨"s3", "prstack-foo-3", "3) s3", "sha3", true⟩

/-- A two-item stack whose first item is disabled, used for `extend`. -/
def itemD1 : StackItem := ⟨"s1", "prstack-foo-1", "1) s1", "sha1", false⟩

/-- Enabled item at position 1 of a two-item stack. -/
def itemA : StackItem := ⟨"s1", "prstack-foo-1", "1) s1", "sha1", true⟩

/-- Enabled item at position 2 of a two-item stack. -/
def itemB : StackItem := ⟨"s2", "prstack-foo-2", "2) s2", "sha2", true⟩

/-- Positional lookup only ever returns elements of the list. -/
theorem nth_mem {α : Type} : ∀ (l : List α) (i : Nat) (a : α), nth l i = some a → a ∈ l := by
  intro l
  induction l with
  | nil => intro i a h; simp [nth] at h
  | cons b rest ih =>
      intro i a h
      cases i with
      | zero => simp [nth] at h; simp [h]
      | succ j => simp [nth] at h; exact List.mem_cons_of_mem b (ih j a h)

/-- A defined position has a defined predecessor position. -/
theorem nth_some_of_succ {α : Type} :
    ∀ (l : List α) (j : Nat) (a : α), nth l (j + 1) = some a → ∃ b, nth l j = some b := by
  intro l
  induction l with
  | nil => intro j a h; simp [nth] at h
  | cons c rest ih =>
      intro j a h
      cases j with
      | zero => exact ⟨c, rfl⟩
      | succ k =>
          simp only [nth] at h ⊢
          exact ih k a h

/-- Dropping the computed upstreams from a loaded chain recovers the input
list unchanged. -/
theorem loadChain_map_fst (db : String) :
    ∀ (l : List StackItem) (prev : Option StackItem),
      (loadChain db prev l).map Prod.fst = l := by
  intro l
  induction l with
  | nil => intro prev; rfl
  | cons it rest ih => intro prev; simp [loadChain, ih]

/-- Index-wise description of a loaded chain: position `i` carries the item
at position `i` of the input together with the upstream computed from the
entry one position earlier (`prev` for the head). -/
theorem loadChain_nth (db : String) :
    ∀ (l : List StackItem) (prev : Option StackItem) (i : Nat),
      nth (loadChain db prev l) i
        = (nth l i).map fun x => (x, upstreamOf db (if i = 0 then prev else nth l (i - 1))) := by
  intro l
  induction l with
  | nil => intro prev i; rfl
  | cons it rest ih =>
      intro prev i
      cases i with
      | zero => rfl
      | succ j =>
          simp only [nth, loadChain]
          rw [ih (some it) j]
          cases j with
          | zero => simp [nth]
          | succ k => simp [nth]

/-- Filtering with a predicate that always holds keeps every item. -/
theorem filter_enabled_or_true :
    ∀ (ps : List StackItem), (ps.filter fun it => it.enabled || true) = ps := by
  intro ps
  induction ps with
  | nil => rfl
  | cons it rest ih => simp [List.filter, ih]

/-- Disjunction with `false` reduces the filter to the enabled test. -/
theorem filter_enabled_or_false :
    ∀ (ps : List StackItem),
      (ps.filter fun it => it.enabled || false) = ps.filter fun it => it.enabled := by
  intro ps
  induction ps with
  | nil => rfl
  | cons it rest ih => simp [List.filter, Bool.or_false, ih]

/-- Toggling a flag never changes the number of persisted items. -/
theorem setEnabledAt_length :
    ∀ (ps : List StackItem) (k : Nat) (v : Bool),
      (setEnabledAt ps k v).length = ps.length := by
  intro ps
  induction ps with
  | nil => intro k v; rfl
  | cons it rest ih =>
      intro k v
      cases k with
      | zero => rfl
      | succ j => simp [setEnabledAt, ih]

/-- Setting the same flag twice at the same index is the same as once. -/
theorem setEnabledAt_idem :
    ∀ (ps : List StackItem) (k : Nat) (v : Bool),
      setEnabledAt (setEnabledAt ps k v) k v = setEnabledAt ps k v := by
  intro ps
  induction ps with
  | nil => intro k v; rfl
  | cons it rest ih =>
      intro k v
      cases k with
      | zero => rfl
      | succ j => simp [setEnabledAt, ih]

/-- A successful prefix test decomposes the list after it. -/
theorem eq_append_drop_of_isPrefixOf :
    ∀ (sep s : List Char), sep.isPrefixOf s = true → s = sep ++ s.drop sep.length := by
  intro sep
  induction sep with
  | nil => intro s _; rfl
  | cons c cs ih =>
      intro s h
      cases s with
      | nil => simp [List.isPrefixOf] at h
      | cons d ds =>
          simp only [List.isPrefixOf, Bool.and_eq_true, beq_iff_eq] at h
          obtain ⟨rfl, h2⟩ := h
          simpa [List.drop] using ih ds h2

/-- The first-occurrence split fails exactly when the separator is absent. -/
theorem splitFirst_eq_none_iff :
    ∀ (sep s : List Char), splitFirst sep s = none ↔ hasSub sep s = false := by
  intro sep s
  induction s with
  | nil =>
      by_cases hp : sep.isPrefixOf ([] : List Char) = true
      · have he : sep.isEmpty = true := by
          cases sep with
          | nil => rfl
          | cons c cs => simp [List.isPrefixOf] at hp
        simp [splitFirst, hasSub, hp, he]
      · have he : sep.isEmpty = false := by
          cases sep with
          | nil => simp [List.isPrefixOf] at hp
          | cons c cs => rfl
        simp [splitFirst, hasSub, hp, he]
  | cons c cs ih =>
      by_cases hp : sep.isPrefixOf (c :: cs) = true
      · simp [splitFirst, hasSub, hp]
      · cases hsc : splitFirst sep cs with
        | none => simp [splitFirst, hasSub, hp, hsc, ih.mp hsc]
        | some p =>
            have hT : hasSub sep cs = true := by
              cases hh : hasSub sep cs
              · exfalso; rw [ih.mpr hh] at hsc; cases hsc
              · rfl
            simp [splitFirst, hasSub, hp, hsc, hT]

/-- A successful first-occurrence split decomposes the string around the
separator. -/
theorem splitFirst_append_of_some :
    ∀ (s a b sep : List Char), splitFirst sep s = some (a, b) → s = a ++ sep ++ b := by
  intro s
  induction s with
  | nil =>
      intro a b sep h
      by_cases hp : sep.isPrefixOf ([] : List Char) = true
      · have he : sep = [] := by
          cases sep with
          | nil => rfl
          | cons c cs => simp [List.isPrefixOf] at hp
        simp [splitFirst, hp] at h
        obtain ⟨rfl, rfl⟩ := h
        simp [he]
      · simp [splitFirst, hp] at h
  | cons c cs ih =>
      intro a b sep h
      by_cases hp : sep.isPrefixOf (c :: cs) = true
      · simp [splitFirst, hp] at h
        obtain ⟨rfl, rfl⟩ := h
        simpa using eq_append_drop_of_isPrefixOf sep (c :: cs) hp
      · cases hsc : splitFirst sep cs with
        | none => simp [splitFirst, hp, hsc] at h
        | some p =>
            obtain ⟨a', b'⟩ := p
            simp [splitFirst, hp, hsc] at h
            obtain ⟨rfl, rfl⟩ := h
            have hcs := ih a' b' sep hsc
            simp [hcs]

/-- Index-wise upstream characterization over an already-filtered chain:
position `i`'s upstream is the default branch exactly when `i` is first or
the loaded predecessor is disabled, and is the predecessor's branch when the
predecessor is enabled — provided no item's branch collides with the default
branch name. -/
theorem chain_upstream (db : String) (l : List StackItem)
    (hdb : ∀ it ∈ l, it.branch ≠ db) :
    ∀ (i : Nat) (it : StackItem) (us : String),
      nth (loadChain db none l) i = some (it, us) →
      ((us = db ↔ (i = 0 ∨ ∃ p pu, nth (loadChain db none l) (i - 1) = some (p, pu) ∧ p.enabled = false))
        ∧ ∀ (p : StackItem) (pu : String),
            nth (loadChain db none l) (i - 1) = some (p, pu) → i ≠ 0 → p.enabled = true →
            us = p.branch) := by
  intro i it us h
  rw [loadChain_nth] at h
  cases hli : nth l i with
  | none => rw [hli] at h; cases h
  | some it0 =>
      rw [hli] at h
      simp only [Option.map_some', Option.some.injEq, Prod.mk.injEq] at h
      obtain ⟨-, hus⟩ := h
      cases i with
      | zero =>
          rw [if_pos rfl] at hus
          have husdb : us = db := by simpa [upstreamOf] using hus.symm
          refine ⟨⟨fun _ => Or.inl rfl, fun _ => husdb⟩, ?_⟩
          intro p pu _ hi0 _
          exact absurd rfl hi0
      | succ j =>
          have hif : (if j + 1 = 0 then (none : Option StackItem) else nth l (j + 1 - 1))
              = nth l j := by simp
          rw [hif] at hus
          obtain ⟨p, hpj⟩ := nth_some_of_succ l j it0 hli
          rw [hpj] at hus
          have hloadj : nth (loadChain db none l) j
              = some (p, upstreamOf db (if j = 0 then none else nth l (j - 1))) := by
            rw [loadChain_nth, hpj]
            rfl
          have hmem : p ∈ l := nth_mem l j p hpj
          simp only [Nat.add_sub_cancel]
          cases hpe : p.enabled with
          | false =>
              have husdb : us = db := by simpa [upstreamOf, hpe] using hus.symm
              refine ⟨⟨fun _ => Or.inr ⟨p, _, hloadj, hpe⟩, fun _ => husdb⟩, ?_⟩
              intro p' pu' hp' _ hpe'
              rw [hloadj] at hp'
              simp only [Option.some.injEq, Prod.mk.injEq] at hp'
              obtain ⟨hpp, -⟩ := hp'
              rw [← hpp] at hpe'
              rw [hpe] at hpe'
              exact Bool.noConfusion hpe'
          | true =>
              have husbr : us = p.branch := by simpa [upstreamOf, hpe] using hus.symm
              have hbrne : p.branch ≠ db := hdb p hmem
              refine ⟨⟨?_, ?_⟩, ?_⟩
              · intro hd
                exact absurd (husbr.symm.trans hd) hbrne
              · intro hr
                cases hr with
                | inl h0 => exact absurd h0 (Nat.succ_ne_zero j)
                | inr hex =>
                    obtain ⟨p', pu', hp', hpe'⟩ := hex
                    rw [hloadj] at hp'
                    simp only [Option.some.injEq, Prod.mk.injEq] at hp'
                    obtain ⟨hpp, -⟩ := hp'
                    rw [← hpp] at hpe'
                    rw [hpe] at hpe'
                    exact Bool.noConfusion hpe'
              · intro p' pu' hp' _ _
                rw [hloadj] at hp'
                simp only [Option.some.injEq, Prod.mk.injEq] at hp'
                obtain ⟨hpp, -⟩ := hp'
                rw [husbr, ← hpp]

/-- Claim C1: over the loaded sequence (either load mode), an item's computed
upstream equals the default branch iff it is the first loaded item or its
loaded predecessor is disabled, and otherwise equals the loaded
predecessor's branch (assuming no stack branch is named like the default
branch); and in the 3-item stack `foo` with item 2 disabled, the
enabled-only load gives item 3 the upstream `prstack-foo-1` — item 1's
branch, not the default branch (the filtered predecessor relation is what
skips runs of disabled items). -/
theorem c1_upstream :
    (∀ (ps : List StackItem) (incl : Bool) (db : String),
        (∀ it ∈ ps, it.branch ≠ db) →
        ∀ (i : Nat) (it : StackItem) (us : String),
          nth (load ps incl db) i = some (it, us) →
          ((us = db ↔ (i = 0 ∨ ∃ p pu, nth (load ps incl db) (i - 1) = some (p, pu)
              ∧ p.enabled = false))
            ∧ ∀ (p : StackItem) (pu : String),
                nth (load ps incl db) (i - 1) = some (p, pu) → i ≠ 0 → p.enabled = true →
                us = p.branch))
    ∧ (load [foo1, foo2, foo3] false "main").map Prod.snd = ["main", "prstack-foo-1"] := by
  constructor
  · intro ps incl db hdb
    have hdb' : ∀ it ∈ ps.filter (fun x => x.enabled || incl), it.branch ≠ db := by
      intro it hmem
      exact hdb it (List.mem_filter.mp hmem).1
    exact chain_upstream db _ hdb'
  · decide

/-- Claim C1 witness: in the concrete 3-item stack with item 2 disabled, the
theorem applied at loaded position 1 (item 3) with loaded predecessor item 1
yields that item 3's upstream is item 1's branch. -/
theorem c1_upstream_witness : "prstack-foo-1" = foo1.branch :=
  (c1_upstream.1 [foo1, foo2, foo3] false "main" (by decide) 1 foo3 "prstack-foo-1"
      (by decide)).2 foo1 "main" (by decide) (by decide) (by decide)

/-- Claim C7: for every persisted stack, loading with `includeDisabled` returns
exactly the persisted items in file order, and loading without it returns
exactly the enabled subsequence in the same relative order. -/
theorem c7_load_roundtrip :
    ∀ (ps : List StackItem) (db : String),
      (load ps true db).map Prod.fst = ps
      ∧ (load ps false db).map Prod.fst = ps.filter (fun it => it.enabled)
      ∧ (load ps true db).length = ps.length := by
  intro ps db
  have h1 : (load ps true db).map Prod.fst = ps := by
    rw [load, loadChain_map_fst, filter_enabled_or_true]
  have h2 : (load ps false db).map Prod.fst = ps.filter (fun it => it.enabled) := by
    rw [load, loadChain_map_fst, filter_enabled_or_false]
  refine ⟨h1, h2, ?_⟩
  calc (load ps true db).length = ((load ps true db).map Prod.fst).length := by
        rw [List.length_map]
    _ = ps.length := by rw [h1]

/-- Claim C7 witness: the enabled-only load of the scenario stack returns exactly
items 1 and 3, in order. -/
theorem c7_load_roundtrip_witness :
    (load [foo1, foo2, foo3] false "main").map Prod.fst = [foo1, foo3] :=
  ((c7_load_roundtrip [foo1, foo2, foo3] "main").2.1).trans (by decide)

/-- Claim C2: evaluation of `extend` at a stack whose first item is disabled.
Because `Stack.extend` starts from `self.load()` — the enabled-only list —
and stores exactly that list plus the new item, the persisted file after the
call holds only two items: the disabled item 1 is dropped, and the new item
reuses the branch name `prstack-foo-2` of the surviving item, so the claim's
append-only frame property fails on stacks containing disabled items. -/
theorem c2_extend_drops_disabled :
    extend "foo" [itemD1, itemB] "t3"
      = some [itemB, ⟨"t3", "prstack-foo-2", "2) t3", "sha2", true⟩]
    ∧ ((extend "foo" [itemD1, itemB] "t3").getD []).map (fun it => it.branch)
      = ["prstack-foo-2", "prstack-foo-2"]
    ∧ "prstack-foo-1" ∉ ((extend "foo" [itemD1, itemB] "t3").getD []).map (fun it => it.branch)
    ∧ ((extend "foo" [itemD1, itemB] "t3").getD []).length ≠ [itemD1, itemB].length + 1 := by
  refine ⟨by decide, by decide, by decide, by decide⟩

/-- Claim C4 counterexample: position 0 on a 2-item stack is outside `[1, 2]`, yet
`disable 0` does not fail — it disables the last item and persists the
change — and `enable 0` likewise re-enables the last item. -/
theorem c4_counterexample :
    disable [itemA, itemB] 0 = some [itemA, withEnabled itemB false]
    ∧ disable [itemA, itemB] 0 ≠ none
    ∧ disable [itemA, itemB] 0 ≠ some [itemA, itemB]
    ∧ enable [itemA, withEnabled itemB false] 0 = some [itemA, itemB] := by
  refine ⟨by decide, by decide, by decide, by decide⟩

/-- Claim C4 (amended): enable/disable fail — raising `IndexError` before anything
is stored, so the persisted stack is unchanged — exactly for positions above
`n` or below `-(n - 1)`; positions in `[-(n - 1), 0]` are not rejected (they
address items from the end, see the C9 theorem). -/
theorem c4_out_of_range :
    ∀ (ps : List StackItem) (num : Int),
      ((ps.length : Int) < num ∨ num < 1 - (ps.length : Int)) →
      disable ps num = none ∧ enable ps num = none := by
  intro ps num h
  have hidx : pyIndex ps.length (num - 1) = none := by
    unfold pyIndex
    rw [if_neg, if_neg]
    · intro hc
      obtain ⟨h1, h2⟩ := hc
      cases h with
      | inl hh => omega
      | inr hh => omega
    · intro hc
      obtain ⟨h1, h2⟩ := hc
      cases h with
      | inl hh => omega
      | inr hh => omega
  constructor
  · unfold disable
    rw [hidx]
    rfl
  · unfold enable
    rw [hidx]
    rfl

/-- Claim C4 witness: on a 1-item stack, position 5 (and the theorem also covers
position -3 and friends) makes both operations fail without persisting. -/
theorem c4_out_of_range_witness : disable [itemA] 5 = none ∧ enable [itemA] 5 = none :=
  c4_out_of_range [itemA] 5 (by decide)

/-- Claim C9: for positions `pos` with `-(n-1) ≤ pos ≤ 0`, enable/disable raise no
error: Python's signed indexing resolves `items[pos - 1]` to the item at
1-based position `n + pos` (0-based index `n + pos - 1`), whose flag is
mutated and persisted. -/
theorem c9_negative_positions :
    ∀ (ps : List StackItem) (pos : Int),
      1 - (ps.length : Int) ≤ pos → pos ≤ 0 →
      disable ps pos = some (setEnabledAt ps ((ps.length : Int) + pos - 1).toNat false)
      ∧ enable ps pos = some (setEnabledAt ps ((ps.length : Int) + pos - 1).toNat true) := by
  intro ps pos h1 h2
  have hidx : pyIndex ps.length (pos - 1) = some ((ps.length : Int) + pos - 1).toNat := by
    unfold pyIndex
    rw [if_neg, if_pos]
    · have harg : pos - 1 + (ps.length : Int) = (ps.length : Int) + pos - 1 := by omega
      rw [harg]
    · constructor
      · omega
      · omega
    · intro hc
      obtain ⟨hc1, hc2⟩ := hc
      omega
  constructor
  · unfold disable
    rw [hidx]
    rfl
  · unfold enable
    rw [hidx]
    rfl

/-- Claim C9 witness: `disable 0` on a 2-item stack silently disables the last
item (1-based position 2) and persists that list. -/
theorem c9_negative_positions_witness :
    disable [itemA, itemB] 0
      = some (setEnabledAt [itemA, itemB] ((([itemA, itemB].length : Int) + 0 - 1).toNat) false) :=
  (c9_negative_positions [itemA, itemB] 0 (by decide) (by decide)).1

/-- Claim C8: enable and disable are idempotent on the persisted state for every
valid position: a second call with the same position loads the stored list,
resolves the same index, and re-stores an identical list. -/
theorem c8_idempotent :
    ∀ (ps ps' : List StackItem) (num : Int),
      1 ≤ num → num ≤ (ps.length : Int) →
      ((disable ps num = some ps' → disable ps' num = some ps')
        ∧ (enable ps num = some ps' → enable ps' num = some ps')) := by
  intro ps ps' num h1 h2
  have hidx : pyIndex ps.length (num - 1) = some (num - 1).toNat := by
    unfold pyIndex
    rw [if_pos]
    constructor
    · omega
    · omega
  constructor
  · intro h
    unfold disable at h ⊢
    rw [hidx] at h
    simp only [Option.map_some', Option.some.injEq] at h
    have hlen : ps'.length = ps.length := by
      rw [← h, setEnabledAt_length]
    rw [hlen, hidx]
    simp only [Option.map_some', Option.some.injEq]
    rw [← h, setEnabledAt_idem]
  · intro h
    unfold enable at h ⊢
    rw [hidx] at h
    simp only [Option.map_some', Option.some.injEq] at h
    have hlen : ps'.length = ps.length := by
      rw [← h, setEnabledAt_length]
    rw [hlen, hidx]
    simp only [Option.map_some', Option.some.injEq]
    rw [← h, setEnabledAt_idem]

/-- Claim C8 witness: disabling position 1 of a 1-item stack twice leaves the same
persisted state the first call produced. -/
theorem c8_idempotent_witness :
    disable [withEnabled itemA false] 1 = some [withEnabled itemA false] :=
  (c8_idempotent [itemA] [withEnabled itemA false] 1 (by decide) (by decide)).1 (by decide)

/-- Claim C3 counterexample: a remote body whose human-owned suffix itself contains
the `"## Description"` marker. Python's `split(...)[1]` keeps only the
segment between the first and second occurrences, so the edit result is
`"PA"`: everything from the second marker on (`"## DescriptionB"`) is
dropped, the claimed verbatim-preserved suffix `"A## DescriptionB"` is not a
suffix of the produced body, and the result also differs from prefix ++
content-from-marker-onward. -/
theorem c3_counterexample :
    edit ("## DescriptionA## DescriptionB".data) ("P".data) = some ("PA".data)
    ∧ hasSuffixB ("A## DescriptionB".data) ("PA".data) = false
    ∧ "PA".data ≠ "P".data ++ "## DescriptionA## DescriptionB".data := by
  refine ⟨by decide, by decide, by decide⟩

/-- Claim C3 (amended): when the marker is absent from the remote body, `edit`
fails hard (the subscript raises) and writes nothing; when the remote body
splits as `a ++ marker ++ s` at the first marker occurrence and the
remainder `s` contains no further marker, the new body is exactly the
freshly generated prefix (which, as produced by `get_pr_body`, ends with
the marker) followed by `s`, the content after the marker, preserved
verbatim. -/
theorem c3_round_trip :
    (∀ (body pre : List Char), hasSub pr_marker body = false → edit body pre = none)
    ∧ (∀ (body pre a s : List Char),
        splitFirst pr_marker body = some (a, s) → hasSub pr_marker s = false →
        edit body pre = some (pre ++ s) ∧ body = a ++ pr_marker ++ s) := by
  constructor
  · intro body pre h
    have hn : splitFirst pr_marker body = none := (splitFirst_eq_none_iff pr_marker body).mpr h
    simp [edit, hn]
  · intro body pre a s h1 h2
    have hn : splitFirst pr_marker s = none := (splitFirst_eq_none_iff pr_marker s).mpr h2
    constructor
    · simp [edit, h1, hn]
    · exact splitFirst_append_of_some body a s pr_marker h1

/-- Claim C3 witness: a marker-free body makes the edit fail, and a body with one
marker occurrence has its suffix preserved behind the fresh prefix. -/
theorem c3_round_trip_witness :
    edit ("no marker here".data) ("P".data) = none
    ∧ (edit ("intro## Description human text".data) ("NEWPREFIX## Description".data)
          = some ("NEWPREFIX## Description".data ++ " human text".data)
        ∧ "intro## Description human text".data
          = "intro".data ++ pr_marker ++ " human text".data) :=
  ⟨c3_round_trip.1 ("no marker here".data) ("P".data) (by decide),
    c3_round_trip.2 ("intro## Description human text".data) ("NEWPREFIX## Description".data)
      ("intro".data) (" human text".data) (by decide) (by decide)⟩

/-- Claim C5 counterexample: a merged PR reports state `"MERGED"`, which is not
equal to `"CLOSED"`, so `ensure` takes the edit path for an enabled item —
it does not create a new draft PR as the claim's `NO_PR`-includes-`MERGED`
reading requires. -/
theorem c5_counterexample :
    ensure (get_state (some "MERGED")) false = EnsureAction.edit
    ∧ ensure (get_state (some "MERGED")) false ≠ EnsureAction.create := by
  refine ⟨by decide, by decide⟩

/-- Claim C5 (amended): `ensure` creates a draft PR exactly when the observed
state is `"CLOSED"` (which is also what a missing PR is normalized to) and
the item is enabled; any other state — `OPEN`, `DRAFT`, and also the
terminal `MERGED` — takes the edit path. In particular a first run with no
PR creates, and an immediate second run (state `DRAFT`) edits. -/
theorem c5_create_iff :
    ∀ (st : String) (d : Bool),
      (ensure st d = EnsureAction.create ↔ (st = "CLOSED" ∧ d = false))
      ∧ ensure (get_state none) false = EnsureAction.create
      ∧ ensure (get_state (some "DRAFT")) false = EnsureAction.edit := by
  intro st d
  refine ⟨?_, by decide, by decide⟩
  constructor
  · intro h
    by_contra hc
    unfold ensure at h
    rw [if_neg hc] at h
    exact EnsureAction.noConfusion h
  · intro hc
    unfold ensure
    rw [if_pos hc]

/-- Claim C5 witness: the create case at state `"CLOSED"`, enabled, and the edit
case on the immediate re-invocation at state `"DRAFT"`. -/
theorem c5_create_iff_witness :
    ensure "CLOSED" false = EnsureAction.create
    ∧ ensure (get_state (some "DRAFT")) false = EnsureAction.edit :=
  ⟨(c5_create_iff "CLOSED" false).1.mpr ⟨rfl, rfl⟩, (c5_create_iff "DRAFT" false).2.2⟩

/-- Claim C6 counterexample: with two failing items, the `asyncio.gather` fan-out
of `ensure_prs` surfaces only the first failure; the caller sees `["boom1"]`,
not both failures reported together, even though both items failed. -/
theorem c6_counterexample :
    gatherFirstError [Except.error "boom1", Except.error "boom2"] = Except.error "boom1"
    ∧ errorsReported (gatherFirstError [Except.error "boom1", Except.error "boom2"]) = ["boom1"]
    ∧ allErrors [Except.error "boom1", Except.error "boom2"] = ["boom1", "boom2"]
    ∧ "boom2" ∉ errorsReported (gatherFirstError [Except.error "boom1", Except.error "boom2"])
    ∧ errorsReported (gatherFirstError [Except.error "boom1", Except.error "boom2"])
        ≠ allErrors [Except.error "boom1", Except.error "boom2"] := by
  refine ⟨rfl, rfl, rfl, by decide, by decide⟩

/-- Claim C6 (amended): the PR-ensure phase is fail-fast, not collecting — its
result reports at most one failure, it succeeds exactly when no item
failed, and the single failure it does report is one of the items'
failures; per-item failures are never aggregated into one joint report. -/
theorem c6_first_error_only :
    ∀ (rs : List (Except String Unit)),
      (errorsReported (gatherFirstError rs)).length ≤ 1
      ∧ (gatherFirstError rs = Except.ok Unit.unit ↔ allErrors rs = [])
      ∧ (∀ e, gatherFirstError rs = Except.error e → e ∈ allErrors rs) := by
  intro rs
  induction rs with
  | nil =>
      refine ⟨by simp [gatherFirstError, errorsReported], by simp [gatherFirstError, allErrors], ?_⟩
      intro e h
      exact Except.noConfusion h
  | cons r rest ih =>
      cases r with
      | ok u =>
          refine ⟨?_, ?_, ?_⟩
          · simpa [gatherFirstError] using ih.1
          · simpa [gatherFirstError, allErrors] using ih.2.1
          · intro e h
            have h2 : gatherFirstError rest = Except.error e := by
              simpa [gatherFirstError] using h
            have h3 := ih.2.2 e h2
            simpa [allErrors] using h3
      | error e0 =>
          refine ⟨?_, ?_, ?_⟩
          · simp [gatherFirstError, errorsReported]
          · simp [gatherFirstError, allErrors]
          · intro e h
            simp only [gatherFirstError, Except.error.injEq] at h
            simp [allErrors, h]

/-- Claim C6 witness: a singleton failing phase reports at most one failure. -/
theorem c6_first_error_only_witness :
    (errorsReported (gatherFirstError [Except.error "boom"])).length ≤ 1 :=
  (c6_first_error_only [Except.error "boom"]).1

/-- Claim C10: the per-run memoization of `get_pr_link` caches the `"(none)"`
placeholder like any other result: a miss with no PR stores the
placeholder; any later lookup of a cached ref returns the cached string —
even when the review service would now report a PR — other refs' lookups
never evict an entry, and link lines composed later in the run therefore
still render the placeholder for that ref. -/
theorem c10_pr_link_memoized :
    ∀ (world : String → Option String) (cache : List (String × String)) (ref : String),
      (lookupCache cache ref = none → world ref = none →
        get_pr_link world cache ref = ("(none)", (ref, "(none)") :: cache))
      ∧ (∀ v, lookupCache cache ref = some v → get_pr_link world cache ref = (v, cache))
      ∧ (∀ v ref2 world2, lookupCache cache ref = some v →
          lookupCache (get_pr_link world2 cache ref2).2 ref = some v)
      ∧ (∀ world2 i m, lookupCache cache ref = some "(none)" →
          prLine i m (get_pr_link world2 cache ref).1 = prLine i m "(none)") := by
  intro world cache ref
  refine ⟨?_, ?_, ?_, ?_⟩
  · intro h1 h2
    simp [get_pr_link, h1, h2]
  · intro v hv
    simp [get_pr_link, hv]
  · intro v ref2 world2 hv
    cases hr2 : lookupCache cache ref2 with
    | some w => simp [get_pr_link, hr2, hv]
    | none =>
        have hne : ref2 ≠ ref := by
          intro he
          rw [he] at hr2
          rw [hr2] at hv
          exact Option.noConfusion hv
        cases hw : world2 ref2 with
        | some url => simp [get_pr_link, hr2, hw, lookupCache, hne, hv]
        | none => simp [get_pr_link, hr2, hw, lookupCache, hne, hv]
  · intro world2 i m hv
    simp [get_pr_link, hv]

/-- Claim C10 witness: the first lookup of `prstack-foo-1` in an empty cache with
no PR yields and memoizes the placeholder; the next lookup in the same run
still returns the placeholder although the review service now has a PR. -/
theorem c10_pr_link_memoized_witness :
    get_pr_link worldEmpty [] "prstack-foo-1" = ("(none)", [("prstack-foo-1", "(none)")])
    ∧ get_pr_link worldFound [("prstack-foo-1", "(none)")] "prstack-foo-1"
      = ("(none)", [("prstack-foo-1", "(none)")]) :=
  ⟨(c10_pr_link_memoized worldEmpty [] "prstack-foo-1").1 rfl rfl,
    (c10_pr_link_memoized worldFound [("prstack-foo-1", "(none)")] "prstack-foo-1").2.1
      "(none)" (by decide)⟩

end Prstack
